import Mathlib

/-!
Shallow embedding of the leak-detector ML service
(`back/ml_service/ml_service.py` and `back/ml_service/dummy_ml_service.py`).

Numeric values flowing through the pandas/numpy pipeline are embedded as
exact rationals extended with the IEEE special values NaN and ±infinity
(`FVal`), so that the `fillna` / division-by-zero behaviour of the source is
captured faithfully.  The pre-trained artifacts (scaler, autoencoder,
supervised classifier, SHAP library) are external binary artifacts, not code
of this repository; they appear as opaque parameters (a `Scaler` structure,
`Except`-valued model functions, an `Except`-valued attribution result).
-/

namespace LeakDetector

/-- Floating-point value as seen by the pipeline: an exact finite rational,
NaN, or a signed infinity. -/
inductive FVal where
  | finite (q : ℚ)
  | nan
  | inf
  | neginf
deriving DecidableEq, Repr

/-- Embedding of `Series.fillna(0)` at a single entry: NaN becomes 0, every
other value (including infinities) is left unchanged. -/
def fillna0 : FVal → FVal
  | .nan => .finite 0
  | v => v

/-- Elementwise addition with IEEE special-value propagation (numpy `+`). -/
def fadd : FVal → FVal → FVal
  | .nan, _ => .nan
  | _, .nan => .nan
  | .inf, .neginf => .nan
  | .inf, _ => .inf
  | .neginf, .inf => .nan
  | .neginf, _ => .neginf
  | .finite _, .inf => .inf
  | .finite _, .neginf => .neginf
  | .finite a, .finite b => .finite (a + b)

/-- Elementwise division with IEEE special-value semantics (numpy `/`):
a finite nonzero numerator over a zero denominator gives a signed infinity,
0/0 gives NaN. -/
def fdiv : FVal → FVal → FVal
  | .nan, _ => .nan
  | _, .nan => .nan
  | .inf, .inf => .nan
  | .inf, .neginf => .nan
  | .neginf, .inf => .nan
  | .neginf, .neginf => .nan
  | .inf, .finite b => if 0 ≤ b then .inf else .neginf
  | .neginf, .finite b => if 0 ≤ b then .neginf else .inf
  | .finite _, .inf => .finite 0
  | .finite _, .neginf => .finite 0
  | .finite a, .finite b =>
      if b = 0 then
        (if a = 0 then .nan else if 0 < a then .inf else .neginf)
      else .finite (a / b)

/-- Epsilon guard used by the derived ratio features (`1e-6` in the source). -/
def eps : ℚ := 1 / 1000000

/-- One entry of a derived ratio column:
`(features[num] / (features[den] + 1e-6)).fillna(0)` at a single row. -/
def ratioEntry (num den : FVal) : FVal :=
  fillna0 (fdiv num (fadd den (.finite eps)))

/-- Column payload of a raw dataframe: numeric, date (already parsed by
`pd.to_datetime(..., errors='coerce')`, `none` = NaT), categorical string
(`none` = missing), or boolean. -/
inductive RawVals where
  | nums (xs : List FVal)
  | dates (xs : List (Option ℤ))
  | strs (xs : List (Option String))
  | bools (xs : List Bool)
deriving DecidableEq, Repr

/-- A dataframe: a row count and named columns in order. -/
structure RawDF where
  nrows : ℕ
  cols : List (String × RawVals)
deriving Repr

/-- Look up a column by name (`df[name]` when `name in df.columns`). -/
def getCol (cols : List (String × RawVals)) (name : String) : Option RawVals :=
  (cols.find? (fun c => c.1 == name)).map (·.2)

/-- Look up a numeric column's data. -/
def getNums (cols : List (String × RawVals)) (name : String) : Option (List FVal) :=
  match getCol cols name with
  | some (.nums xs) => some xs
  | _ => none

/-- Look up a date column's data. -/
def getDates (cols : List (String × RawVals)) (name : String) : Option (List (Option ℤ)) :=
  match getCol cols name with
  | some (.dates xs) => some xs
  | _ => none

/-- Look up a categorical column's data. -/
def getStrs (cols : List (String × RawVals)) (name : String) : Option (List (Option String)) :=
  match getCol cols name with
  | some (.strs xs) => some xs
  | _ => none

/-- Look up a boolean column's data. -/
def getBools (cols : List (String × RawVals)) (name : String) : Option (List Bool) :=
  match getCol cols name with
  | some (.bools xs) => some xs
  | _ => none

/-- Fixed set of numeric CSV columns copied into the feature frame. -/
def numericColNames : List String :=
  ["invoice_amount", "tax_amount", "total_amount",
   "discount_applied", "refund_amount", "retries",
   "gateway_fee", "usage_units", "usage_cost", "rounding_diff"]

/-- Fixed set of categorical columns that get one-hot encoded. -/
def categoricalColNames : List String :=
  ["currency", "payment_status", "payment_method",
   "subscription_plan", "billing_cycle", "country",
   "failed_reason", "system_version"]

/-- One entry of a calendar-delta column: `(later - earlier).dt.days.fillna(0)`
at a single row; any NaT operand yields NaN which the `fillna(0)` collapses. -/
def dateDelta (later earlier : Option ℤ) : FVal :=
  match later, earlier with
  | some b, some a => .finite ((b - a : ℤ) : ℚ)
  | _, _ => .finite 0

/-- Lexicographic order on the character data of strings (the order
`pd.get_dummies` uses to enumerate categories). -/
abbrev strLe (a b : String) : Prop := ¬ b.data < a.data

instance : DecidableRel strLe := fun _ _ => instDecidableNot

/-- Distinct non-missing values of a categorical column in ascending order,
as `pd.get_dummies` enumerates categories. -/
def sortedUniques (xs : List (Option String)) : List String :=
  List.insertionSort strLe (xs.filterMap id).dedup

/-- Embedding of `pd.get_dummies(df[col], prefix=col, drop_first=True)`:
one boolean indicator column per category except the first. -/
def oneHot (pfx : String) (xs : List (Option String)) : List (String × RawVals) :=
  ((sortedUniques xs).drop 1).map
    (fun v => (pfx ++ "_" ++ v, RawVals.bools (xs.map (fun x => x == some v))))

/-- Feature construction of `MLService._engineer_features` before the final
width reconciliation: numeric copies (missing values filled with 0), the two
calendar-delta features, one-hot encodings, the boolean `is_prorated` column,
and the two epsilon-guarded ratio features, in source order. -/
def rawFeatures (df : RawDF) : List (String × RawVals) :=
  let numeric := numericColNames.filterMap
    (fun c => (getNums df.cols c).map (fun xs => (c, RawVals.nums (xs.map fillna0))))
  let payDelay :=
    match getDates df.cols "invoice_date", getDates df.cols "payment_date" with
    | some inv, some pay =>
        [("payment_delay_days", RawVals.nums (List.zipWith dateDelta pay inv))]
    | _, _ => []
  let dueDelay :=
    match getDates df.cols "invoice_date", getDates df.cols "due_date" with
    | some inv, some due =>
        [("due_delay_days", RawVals.nums (List.zipWith dateDelta due inv))]
    | _, _ => []
  let cats := categoricalColNames.flatMap
    (fun c =>
      match getStrs df.cols c with
      | some xs => oneHot c xs
      | none => [])
  let pro :=
    match getBools df.cols "is_prorated" with
    | some xs => [("is_prorated", RawVals.bools xs)]
    | none => []
  let base := numeric ++ payDelay ++ dueDelay ++ cats ++ pro
  let taxRate :=
    match getNums base "invoice_amount", getNums base "tax_amount" with
    | some inv, some tax =>
        [("tax_rate", RawVals.nums (List.zipWith ratioEntry tax inv))]
    | _, _ => []
  let base2 := base ++ taxRate
  let refundRate :=
    match getNums base2 "refund_amount", getNums base2 "total_amount" with
    | some ref, some tot =>
        [("refund_rate", RawVals.nums (List.zipWith ratioEntry ref tot))]
    | _, _ => []
  base2 ++ refundRate

/-- Width reconciliation at the end of `_engineer_features`: pad with fresh
zero-valued `feature_i` columns up to `W`, or truncate to the first `W`
columns in construction order. -/
def widthReconcile (W nrows : ℕ) (feats : List (String × RawVals)) :
    List (String × RawVals) :=
  let n := feats.length
  if n < W then
    feats ++ (List.range (W - n)).map
      (fun k => ("feature_" ++ toString (n + k),
                 RawVals.nums (List.replicate nrows (FVal.finite 0))))
  else if n > W then feats.take W
  else feats

/-- Embedding of `MLService._engineer_features`, with `W` the scaler's
expected input width (`scaler.n_features_in_`). -/
def engineerFeatures (W : ℕ) (df : RawDF) : List (String × RawVals) :=
  widthReconcile W df.nrows (rawFeatures df)

/-- Dtype test performed by `select_dtypes(include=[np.number])` on the
engineered frame: numeric (float/int) columns pass, boolean one-hot columns
do not. -/
def isNumericVals : RawVals → Bool
  | .nums _ => true
  | _ => false

/-- Opaque pre-trained scaler artifact: its expected input width
(`n_features_in_`) and its `transform` on a row-major matrix. -/
structure Scaler where
  nFeaturesIn : ℕ
  transform : List (List ℚ) → List (List ℚ)

/-- Numeric reading of a matrix entry handed to the opaque scaler (the
engineered numeric data is finite on all realistic inputs; special values
are read as 0 here, the transform being opaque anyway). -/
def fvalToQ : FVal → ℚ
  | .finite q => q
  | _ => 0

/-- Entry `i` of a column, as `DataFrame.values` exposes it. -/
def colEntry (v : RawVals) (i : ℕ) : ℚ :=
  match v with
  | .nums xs => fvalToQ (xs.getD i (.finite 0))
  | .bools xs => if xs.getD i false then 1 else 0
  | .dates _ => 0
  | .strs _ => 0

/-- Row-major matrix of the given columns (`features_df[numeric].values`). -/
def toMatrix (nrows : ℕ) (cols : List (String × RawVals)) : List (List ℚ) :=
  (List.range nrows).map (fun i => cols.map (fun c => colEntry c.2 i))

/-- Embedding of `MLService.preprocess_data`: engineer features, keep only
the numeric-dtype columns, scale them, and return the cleaned frame together
with the scaled frame (its column names and its data matrix). -/
def preprocessData (sc : Scaler) (df : RawDF) :
    RawDF × (List String × List (List ℚ)) :=
  let feats := engineerFeatures sc.nFeaturesIn df
  let numericFeatures := feats.filter (fun c => isNumericVals c.2)
  let names := numericFeatures.map (·.1)
  (df, (names, sc.transform (toMatrix df.nrows numericFeatures)))

/-- An anomaly record as built by `detect_anomalies` (timestamp and the raw
row snapshot, which no verified property touches, are elided). -/
structure AnomalyRec where
  row_index : ℕ
  anomaly_score : ℚ
  severity : String
  model_prediction : String
  reconstruction_error : ℚ
  supervised_score : ℚ
  shap_values : Option (List (String × ℚ))
deriving DecidableEq, Repr

/-- Severity step function of the real scorer
(`ml_service.py`, `detect_anomalies`). -/
def severityReal (s : ℚ) : String :=
  if 0.8 ≤ s then "high"
  else if 0.5 ≤ s then "medium"
  else "low"

/-- Severity step function of the fallback scorer
(`dummy_ml_service.py`, `detect_anomalies`). -/
def severityDummy (s : ℚ) : String :=
  if 0.8 ≤ s then "high"
  else if 0.5 ≤ s then "medium"
  else "low"

/-- Per-row reconstruction error: mean squared deviation between the row and
its reconstruction (`np.mean(np.square(X - reconstructed), axis=1)`). -/
def meanSquaredRow (x r : List ℚ) : ℚ :=
  (List.zipWith (fun a b => (a - b) ^ 2) x r).sum / (x.length : ℚ)

/-- Raw reconstruction errors of a batch. -/
def reconstructionErrors (X R : List (List ℚ)) : List ℚ :=
  List.zipWith meanSquaredRow X R

/-- Batch maximum (`np.max`) of the error array. -/
def npMax (l : List ℚ) : ℚ :=
  match l with
  | [] => 0
  | x :: xs => xs.foldl max x

/-- Normalization of reconstruction errors: divide by the batch maximum when
it is positive, otherwise leave the raw errors unchanged. -/
def normalizeScores (errs : List ℚ) : List ℚ :=
  if 0 < npMax errs then errs.map (fun e => e / npMax errs) else errs

/-- Fixed-weight score fusion:
`combined = 0.6 * reconstruction_scores + 0.4 * supervised_scores`. -/
def combineScores (recon sup : List ℚ) : List ℚ :=
  List.zipWith (fun r s => 0.6 * r + 0.4 * s) recon sup

/-- Indices selected by `np.where(combined_scores >= threshold)[0]`
(ascending row positions). -/
def anomalyIndices (combined : List ℚ) (T : ℚ) : List ℕ :=
  (List.range combined.length).filter (fun i => decide (T ≤ combined.getD i 0))

/-- Record built for one selected row of the real scorer; `label` abstracts
the per-row `supervised_model.predict` class label. -/
def mkAnomalyRec (combined errsRaw sup : List ℚ) (label : ℕ → String) (i : ℕ) :
    AnomalyRec :=
  let score := combined.getD i 0
  { row_index := i
    anomaly_score := score
    severity := severityReal score
    model_prediction := label i
    reconstruction_error := errsRaw.getD i 0
    supervised_score := sup.getD i 0
    shap_values := none }

/-- Threshold selection and record emission of the real scorer (lines
236-269 of `ml_service.py`), over fixed per-row score arrays. -/
def detectFromScores (normScores sup errsRaw : List ℚ) (label : ℕ → String)
    (T : ℚ) : List AnomalyRec :=
  let combined := combineScores normScores sup
  (anomalyIndices combined T).map (mkAnomalyRec combined errsRaw sup label)

/-- Embedding of `MLService.detect_anomalies`: the autoencoder and the
supervised classifier are opaque artifacts whose inference can fail, hence
`Except`-valued; any model failure propagates and aborts the whole batch
(there is no try/except around inference in the source). -/
def detectAnomaliesE
    (autoenc : List (List ℚ) → Except String (List (List ℚ)))
    (proba : List (List ℚ) → Except String (List ℚ))
    (label : ℕ → String) (X : List (List ℚ)) (T : ℚ) :
    Except String (List AnomalyRec) := do
  let R ← autoenc X
  let errs := reconstructionErrors X R
  let sup ← proba X
  pure (detectFromScores (normalizeScores errs) sup errs label T)

/-- Descending-score comparison used by the fallback scorer's final
`anomalies.sort(key=lambda x: x['anomaly_score'], reverse=True)`. -/
abbrev scoreDescRel (a b : AnomalyRec) : Prop :=
  b.anomaly_score ≤ a.anomaly_score

instance : IsTotal AnomalyRec scoreDescRel :=
  ⟨fun a b => le_total b.anomaly_score a.anomaly_score⟩

instance : IsTrans AnomalyRec scoreDescRel :=
  ⟨fun _ _ _ h1 h2 => le_trans h2 h1⟩

/-- Record built by the fallback scorer for one drawn (index, score) pair. -/
def dummyMkRec (p : ℕ × ℚ) : AnomalyRec :=
  { row_index := p.1
    anomaly_score := p.2
    severity := severityDummy p.2
    model_prediction := if (0.7 : ℚ) < p.2 then "anomaly" else "suspicious"
    reconstruction_error := p.2 * 0.6
    supervised_score := p.2 * 0.4
    shap_values := none }

/-- Embedding of `DummyMLService.detect_anomalies` given the externally
drawn row indices and their uniform scores: build one record per draw, then
sort the list by anomaly score descending. -/
def dummyDetect (idxs : List ℕ) (scores : List ℚ) (T : ℚ) : List AnomalyRec :=
  let _ := T
  List.insertionSort scoreDescRel ((idxs.zip scores).map dummyMkRec)

/-- Number of rows the fallback scorer flags:
`int(len(df) * np.random.uniform(0.05, 0.10))` with `u` the drawn fraction
(truncation equals floor since the product is nonnegative). -/
def numAnomalies (n : ℕ) (u : ℚ) : ℕ :=
  (Int.floor ((n : ℚ) * u)).toNat

/-- Result of the underlying SHAP library computation (explainer
construction plus evaluation for the requested row), which can throw. -/
abbrev ShapResult := Except String (List (String × ℚ))

/-- Descending-absolute-value comparison used to rank attributions. -/
abbrev absDescRel (a b : String × ℚ) : Prop := |b.2| ≤ |a.2|

instance : IsTotal (String × ℚ) absDescRel :=
  ⟨fun a b => le_total |b.2| |a.2|⟩

instance : IsTrans (String × ℚ) absDescRel :=
  ⟨fun _ _ _ h1 h2 => le_trans h2 h1⟩

/-- Embedding of `MLService.compute_shap_values`: on success the per-feature
attributions are sorted by absolute value descending; if the attribution
computation throws, the exception is swallowed and an empty mapping is
returned. -/
def computeShapValues (raw : ShapResult) : List (String × ℚ) :=
  match raw with
  | .ok vals => List.insertionSort absDescRel vals
  | .error _ => []

/-- Embedding of `MLService.generate_summary` (Python's `.title()` casing
and `:.3f` magnitude formatting are abstracted to plain rendering): an empty
attribution mapping yields the fixed unavailability message, otherwise one
line per top contributing feature. -/
def generateSummary (shap : List (String × ℚ))
    (featureValues : List (String × String)) (topN : ℕ) : String :=
  if shap.isEmpty then
    "Unable to generate explanation due to SHAP computation error."
  else
    let top := shap.take topN
    let lines := top.map (fun fv =>
      let direction := if 0 < fv.2 then "increasing" else "decreasing"
      let actual := ((featureValues.find? (fun p => p.1 == fv.1)).map (·.2)).getD "N/A"
      "- " ++ (fv.1.replace "_" " ") ++ ": " ++ actual ++ " (" ++ direction
        ++ " anomaly likelihood by " ++ toString |fv.2| ++ ")")
    String.intercalate "\n"
      ("This transaction was flagged as an anomaly due to:" :: lines)

/-! Helper lemmas shared by several verified properties. -/

/-- Membership in a `zipWith` comes from members of both lists. -/
lemma exists_of_mem_zipWith {α β γ : Type} {f : α → β → γ} :
    ∀ {l1 : List α} {l2 : List β} {c : γ}, c ∈ List.zipWith f l1 l2 →
      ∃ a b, a ∈ l1 ∧ b ∈ l2 ∧ c = f a b := by
  intro l1
  induction l1 with
  | nil => intro l2 c h; simp at h
  | cons x xs ih =>
    intro l2 c h
    cases l2 with
    | nil => simp at h
    | cons y ys =>
      rcases List.mem_cons.mp h with h | h
      · exact ⟨x, y, List.mem_cons_self _ _, List.mem_cons_self _ _, h⟩
      · rcases ih h with ⟨a, b, ha, hb, hc⟩
        exact ⟨a, b, List.mem_cons_of_mem _ ha, List.mem_cons_of_mem _ hb, hc⟩

/-- Every raw reconstruction error is a mean of squares, hence nonnegative. -/
lemma reconstructionErrors_nonneg {X R : List (List ℚ)} :
    ∀ e ∈ reconstructionErrors X R, 0 ≤ e := by
  intro e he
  rcases exists_of_mem_zipWith he with ⟨x, r, _, _, rfl⟩
  unfold meanSquaredRow
  apply div_nonneg
  · apply List.sum_nonneg
    intro z hz
    rcases exists_of_mem_zipWith hz with ⟨a, b, _, _, rfl⟩
    positivity
  · exact_mod_cast Nat.zero_le _

/-- The batch maximum of a constant list is that constant. -/
lemma npMax_of_all_eq {c : ℚ} :
    ∀ {l : List ℚ}, l ≠ [] → (∀ e ∈ l, e = c) → npMax l = c := by
  intro l
  induction l with
  | nil => intro h; exact absurd rfl h
  | cons x xs ih =>
    intro _ hall
    have hx : x = c := hall x (List.mem_cons_self _ _)
    cases xs with
    | nil => simpa [npMax] using hx
    | cons y ys =>
      have htail : npMax (y :: ys) = c :=
        ih (by simp) (fun e he => hall e (List.mem_cons_of_mem _ he))
      subst hx
      simp only [npMax] at htail ⊢
      have hy : y = x := hall y (by simp)
      subst hy
      simpa [max_self] using htail

/-- The emitted records of the real scorer carry exactly the selected
ascending row indices. -/
lemma detect_map_row_index (normScores sup errsRaw : List ℚ)
    (label : ℕ → String) (T : ℚ) :
    (detectFromScores normScores sup errsRaw label T).map (fun r => r.row_index)
      = anomalyIndices (combineScores normScores sup) T := by
  unfold detectFromScores
  rw [List.map_map]
  exact List.map_id _

/-- Membership in the index selection unfolds to the threshold test. -/
lemma mem_anomalyIndices {combined : List ℚ} {T : ℚ} {i : ℕ} :
    i ∈ anomalyIndices combined T ↔
      i < combined.length ∧ T ≤ combined.getD i 0 := by
  unfold anomalyIndices
  rw [List.mem_filter, List.mem_range]
  simp

/-! C1 -/

/-- C1: for every raw batch, `_engineer_features` returns a frame of exactly
width `W`; when the constructed features number at most `W` they are kept as
a prefix and the remainder is zero-valued synthetic padding, and when they
exceed `W` the frame is the first `W` columns in construction order. -/
theorem engineerFeatures_width (W : ℕ) (df : RawDF) :
    (engineerFeatures W df).length = W ∧
    ((rawFeatures df).length ≤ W →
      (engineerFeatures W df).take (rawFeatures df).length = rawFeatures df ∧
      ∀ c ∈ (engineerFeatures W df).drop (rawFeatures df).length,
        c.2 = RawVals.nums (List.replicate df.nrows (FVal.finite 0))) ∧
    (W ≤ (rawFeatures df).length →
      engineerFeatures W df = (rawFeatures df).take W) := by
  unfold engineerFeatures widthReconcile
  set feats := rawFeatures df with hfeats
  set n := feats.length with hn
  by_cases h1 : n < W
  · simp only [if_pos h1]
    refine ⟨?_, fun _ => ⟨?_, ?_⟩, fun h2 => absurd h1 (not_lt.mpr h2)⟩
    · simp [List.length_append, List.length_map, List.length_range]
      omega
    · exact List.take_left _ _
    · intro c hc
      rw [List.drop_left] at hc
      rcases List.mem_map.mp hc with ⟨k, _, rfl⟩
      rfl
  · by_cases h2 : n > W
    · simp only [if_neg h1, if_pos h2]
      refine ⟨?_, fun hle => absurd h2 (not_lt.mpr hle), fun _ => ?_⟩
      · rw [List.length_take]
        omega
      · trivial
    · have heq : n = W := by omega
      simp only [if_neg h1, if_neg h2]
      refine ⟨heq, fun _ => ⟨?_, ?_⟩, fun _ => ?_⟩
      case _ => exact List.take_length feats
      · intro c hc
        rw [List.drop_length] at hc
        simp at hc
      · rw [← heq, List.take_length]

/-- Witness: the padding branch at an empty batch with `W = 2`, and the
truncation branch at `W = 0`. -/
theorem engineerFeatures_width_witness :
    (engineerFeatures 2 ⟨1, []⟩).take (rawFeatures ⟨1, []⟩).length
        = rawFeatures ⟨1, []⟩ ∧
    engineerFeatures 0 ⟨1, []⟩ = (rawFeatures ⟨1, []⟩).take 0 :=
  ⟨((engineerFeatures_width 2 ⟨1, []⟩).2.1 (by decide)).1,
   (engineerFeatures_width 0 ⟨1, []⟩).2.2 (by decide)⟩

/-! C2 -/

/-- C2: for fixed per-row normalized reconstruction scores and supervised
probabilities and every threshold `T`, the emitted records cover exactly the
rows with `0.6 * recon[i] + 0.4 * sup[i] ≥ T`, and the combined score is
that weighted average at every in-range row. -/
theorem detect_set_characterization (normScores sup errsRaw : List ℚ)
    (label : ℕ → String) (T : ℚ) :
    ((detectFromScores normScores sup errsRaw label T).map (fun r => r.row_index)
        = anomalyIndices (combineScores normScores sup) T) ∧
    (∀ i, i ∈ anomalyIndices (combineScores normScores sup) T ↔
        i < (combineScores normScores sup).length ∧
        T ≤ (combineScores normScores sup).getD i 0) ∧
    (∀ i, i < (combineScores normScores sup).length →
        (combineScores normScores sup).getD i 0
          = 0.6 * normScores.getD i 0 + 0.4 * sup.getD i 0) := by
  refine ⟨detect_map_row_index _ _ _ _ _, fun i => mem_anomalyIndices, ?_⟩
  intro i hi
  have hlen := List.length_zipWith
    (fun r s => (0.6 : ℚ) * r + 0.4 * s) normScores sup
  unfold combineScores at hi hlen ⊢
  have h1 : i < normScores.length := by omega
  have h2 : i < sup.length := by omega
  rw [List.getD_eq_getElem _ _ hi, List.getD_eq_getElem _ _ h1,
    List.getD_eq_getElem _ _ h2, List.getElem_zipWith]

/-- Witness: at concrete score arrays, row 2 is selected at threshold 1/2
and the combined score of row 0 is the fixed weighted average. -/
theorem detect_set_characterization_witness :
    (2 : ℕ) ∈ anomalyIndices (combineScores [1, 0, 1] [1, 0, 0]) (1/2) ∧
    (combineScores [1, 0, 1] [1, 0, 0]).getD 0 0 = 0.6 * 1 + 0.4 * 1 :=
  ⟨((detect_set_characterization [1, 0, 1] [1, 0, 0] [] (fun _ => "") (1/2)).2.1
      2).mpr ⟨by decide, by norm_num [combineScores]⟩,
   by
    rw [(detect_set_characterization [1, 0, 1] [1, 0, 0] [] (fun _ => "")
      (1/2)).2.2 0 (by decide)]
    norm_num⟩

/-! C3 -/

/-- C3: the real and fallback scorers share the identical pure severity step
function, with exact boundaries at 0.5 and 0.8. -/
theorem severity_step (s : ℚ) :
    severityReal s = severityDummy s ∧
    (0.8 ≤ s → severityReal s = "high") ∧
    (0.5 ≤ s → s < 0.8 → severityReal s = "medium") ∧
    (s < 0.5 → severityReal s = "low") := by
  unfold severityReal severityDummy
  refine ⟨rfl, fun h => ?_, fun h1 h2 => ?_, fun h => ?_⟩
  · rw [if_pos h]
  · rw [if_neg (by exact not_le.mpr h2), if_pos h1]
  · rw [if_neg (by push_neg; linarith), if_neg (by exact not_le.mpr h)]

/-- Witness: the severity tiers at the boundary scores 0.8, 0.5 and
0.4999. -/
theorem severity_step_witness :
    severityReal (8/10) = "high" ∧ severityReal (5/10) = "medium" ∧
    severityReal (4999/10000) = "low" :=
  ⟨(severity_step (8/10)).2.1 (by norm_num),
   (severity_step (5/10)).2.2.1 (by norm_num) (by norm_num),
   (severity_step (4999/10000)).2.2.2 (by norm_num)⟩

/-! C4 -/

/-- C4 counterexample: the fallback scorer re-sorts its records by anomaly
score descending, so for the concrete draw of rows 0 and 1 with scores 0
and 1 (both within `[threshold, 1]` at threshold 0) the returned
`row_index` sequence is `[1, 0]` — not ascending. -/
theorem row_order_cex :
    ¬ List.Sorted (· ≤ ·)
      ((dummyDetect [0, 1] [0, 1] 0).map (fun r => r.row_index)) := by
  decide

/-- C4 amended: the real scorer emits records in strictly ascending
`row_index` order (never re-sorted), while the fallback scorer returns its
records sorted by anomaly score descending (so input row order is not
preserved there). -/
theorem row_order_amended :
    (∀ (normScores sup errsRaw : List ℚ) (label : ℕ → String) (T : ℚ),
      List.Sorted (· < ·)
        ((detectFromScores normScores sup errsRaw label T).map
          (fun r => r.row_index))) ∧
    (∀ (idxs : List ℕ) (scores : List ℚ) (T : ℚ),
      List.Sorted scoreDescRel (dummyDetect idxs scores T)) := by
  constructor
  · intro normScores sup errsRaw label T
    rw [detect_map_row_index]
    exact (List.sorted_lt_range _).filter _
  · intro idxs scores T
    exact List.sorted_insertionSort scoreDescRel _

/-! C5 -/

/-- C5: when the attribution computation throws, `compute_shap_values`
returns the empty mapping instead of propagating the error, and
`generate_summary` on that empty mapping returns the fixed message that the
explanation is unavailable; being a total function, the recovery never fails
the surrounding detection result. -/
theorem shap_failure_recovery (e : String)
    (featureValues : List (String × String)) (topN : ℕ) :
    computeShapValues (Except.error e) = [] ∧
    generateSummary (computeShapValues (Except.error e)) featureValues topN
      = "Unable to generate explanation due to SHAP computation error." :=
  ⟨rfl, rfl⟩

/-! C6 -/

/-- C6: if either the autoencoder or the supervised classifier fails on the
batch, the whole `detect_anomalies` call fails with that error propagated,
and the failed call never returns a (partial) record list; each model is
consulted once, with no internal retry. -/
theorem inference_failure_atomic
    (autoenc : List (List ℚ) → Except String (List (List ℚ)))
    (proba : List (List ℚ) → Except String (List ℚ))
    (label : ℕ → String) (X : List (List ℚ)) (T : ℚ) (e : String) :
    (autoenc X = Except.error e →
      detectAnomaliesE autoenc proba label X T = Except.error e) ∧
    (∀ R, autoenc X = Except.ok R → proba X = Except.error e →
      detectAnomaliesE autoenc proba label X T = Except.error e) ∧
    (detectAnomaliesE autoenc proba label X T = Except.error e →
      ∀ l, detectAnomaliesE autoenc proba label X T ≠ Except.ok l) := by
  refine ⟨fun h => ?_, fun R hA hp => ?_, fun h l hc => ?_⟩
  · unfold detectAnomaliesE
    rw [h]
    rfl
  · unfold detectAnomaliesE
    rw [hA]
    show (proba X).bind _ = Except.error e
    rw [hp]
    rfl
  · rw [h] at hc
    exact Except.noConfusion hc

/-- Witness: a failing autoencoder and a failing classifier each abort a
concrete one-row batch with their own error. -/
theorem inference_failure_atomic_witness :
    detectAnomaliesE (fun _ => Except.error "boom") (fun _ => Except.ok [])
        (fun _ => "fraud") [[1]] 0 = Except.error "boom" ∧
    detectAnomaliesE (fun _ => Except.ok [[0]]) (fun _ => Except.error "late")
        (fun _ => "fraud") [[1]] 0 = Except.error "late" :=
  ⟨(inference_failure_atomic _ _ _ [[1]] 0 "boom").1 rfl,
   (inference_failure_atomic _ _ _ [[1]] 0 "late").2.1 [[0]] rfl rfl⟩

/-! C7 -/

/-- C7: reconstruction-error normalization divides by the batch maximum
except when that maximum is 0 (raw errors kept); hence a batch of equal
nonzero raw errors normalizes to all-ones, and an all-zero batch stays
all-zero, with no division by zero in either case. -/
theorem normalization_degenerate :
    (∀ (X R : List (List ℚ)) (c : ℚ),
      reconstructionErrors X R ≠ [] →
      (∀ e ∈ reconstructionErrors X R, e = c) → c ≠ 0 →
      normalizeScores (reconstructionErrors X R)
        = List.replicate (reconstructionErrors X R).length 1) ∧
    (∀ errs : List ℚ, (∀ e ∈ errs, e = 0) →
      normalizeScores errs = List.replicate errs.length 0) := by
  constructor
  · intro X R c hne hall hc0
    obtain ⟨w, hw⟩ := List.exists_mem_of_ne_nil _ hne
    have hpos : 0 < c :=
      lt_of_le_of_ne (hall w hw ▸ reconstructionErrors_nonneg w hw)
        (Ne.symm hc0)
    have hmax : npMax (reconstructionErrors X R) = c := npMax_of_all_eq hne hall
    unfold normalizeScores
    rw [hmax, if_pos hpos]
    rw [List.eq_replicate_iff]
    refine ⟨List.length_map _ _, ?_⟩
    intro b hb
    rcases List.mem_map.mp hb with ⟨e, he, rfl⟩
    rw [hall e he]
    exact div_self (ne_of_gt hpos)
  · intro errs hall
    by_cases hne : errs = []
    · subst hne
      rfl
    · have hmax : npMax errs = 0 := npMax_of_all_eq hne hall
      unfold normalizeScores
      rw [hmax, if_neg (lt_irrefl 0)]
      rw [List.eq_replicate_iff]
      exact ⟨rfl, hall⟩

/-- Witness: a two-row batch with identical nonzero errors normalizes to
all-ones, and an all-zero error array stays all-zero. -/
theorem normalization_degenerate_witness :
    normalizeScores (reconstructionErrors [[1], [1]] [[0], [0]])
      = List.replicate (reconstructionErrors [[1], [1]] [[0], [0]]).length 1 ∧
    normalizeScores [0, 0] = List.replicate ([0, 0] : List ℚ).length 0 :=
  ⟨normalization_degenerate.1 [[1], [1]] [[0], [0]] 1
      (by simp [reconstructionErrors])
      (by norm_num [reconstructionErrors, meanSquaredRow])
      one_ne_zero,
   normalization_degenerate.2 [0, 0] (by norm_num)⟩

/-! C8 -/

/-- C8 counterexample: with `invoice_amount = -1e-6` and `tax_amount = 1`,
the guarded denominator is exactly 0, the division yields +infinity, and the
engineered `tax_rate` entry stays infinite — `fillna(0)` collapses only NaN,
so this non-finite value does not collapse to 0. -/
theorem ratio_nonfinite_cex :
    getNums (engineerFeatures 3 ⟨1,
        [("invoice_amount", RawVals.nums [FVal.finite (-eps)]),
         ("tax_amount", RawVals.nums [FVal.finite 1])]⟩) "tax_rate"
      = some [FVal.inf] ∧
    FVal.inf ≠ FVal.finite 0 ∧ fillna0 FVal.inf = FVal.inf := by
  refine ⟨?_, by simp, rfl⟩
  have hstep : getNums (engineerFeatures 3 ⟨1,
      [("invoice_amount", RawVals.nums [FVal.finite (-eps)]),
       ("tax_amount", RawVals.nums [FVal.finite 1])]⟩) "tax_rate"
      = some [ratioEntry (FVal.finite 1) (FVal.finite (-eps))] := rfl
  rw [hstep]
  have hden : fadd (FVal.finite (-eps)) (FVal.finite eps) = FVal.finite 0 := by
    show FVal.finite (-eps + eps) = FVal.finite 0
    rw [neg_add_cancel]
  unfold ratioEntry
  rw [hden]
  show some [fillna0 (if (0:ℚ) = 0 then
      (if (1:ℚ) = 0 then FVal.nan else if (0:ℚ) < 1 then FVal.inf
       else FVal.neginf) else FVal.finite (1 / 0))] = some [FVal.inf]
  norm_num
  rfl

/-- C8 amended: `tax_rate` and `refund_rate` entries are computed as
`numerator / (denominator + 1e-6)` with the NaN case (0/0) collapsed to 0 by
`fillna`; an infinite result (nonzero numerator over a denominator summing
to exactly 0) is NOT collapsed and remains infinite in the engineered
frame. -/
theorem ratio_guard_amended (t a : ℚ) :
    (a + eps ≠ 0 →
      ratioEntry (FVal.finite t) (FVal.finite a) = FVal.finite (t / (a + eps))) ∧
    (a + eps = 0 → t = 0 →
      ratioEntry (FVal.finite t) (FVal.finite a) = FVal.finite 0) ∧
    (a + eps = 0 → 0 < t →
      ratioEntry (FVal.finite t) (FVal.finite a) = FVal.inf) ∧
    (a + eps = 0 → t < 0 →
      ratioEntry (FVal.finite t) (FVal.finite a) = FVal.neginf) := by
  have hbase : ratioEntry (FVal.finite t) (FVal.finite a)
      = fillna0 (fdiv (FVal.finite t) (FVal.finite (a + eps))) := rfl
  refine ⟨fun hne => ?_, fun h0 ht => ?_, fun h0 ht => ?_, fun h0 ht => ?_⟩
  · rw [hbase]
    show fillna0 (if a + eps = 0 then _ else FVal.finite (t / (a + eps))) = _
    rw [if_neg hne]
    rfl
  · rw [hbase, h0]
    show fillna0 (if (0:ℚ) = 0 then
        (if t = 0 then FVal.nan else if 0 < t then FVal.inf else FVal.neginf)
      else FVal.finite (t / 0)) = _
    rw [if_pos rfl, if_pos ht]
    rfl
  · rw [hbase, h0]
    show fillna0 (if (0:ℚ) = 0 then
        (if t = 0 then FVal.nan else if 0 < t then FVal.inf else FVal.neginf)
      else FVal.finite (t / 0)) = _
    rw [if_pos rfl, if_neg (ne_of_gt ht), if_pos ht]
    rfl
  · rw [hbase, h0]
    show fillna0 (if (0:ℚ) = 0 then
        (if t = 0 then FVal.nan else if 0 < t then FVal.inf else FVal.neginf)
      else FVal.finite (t / 0)) = _
    rw [if_pos rfl, if_neg (ne_of_lt ht), if_neg (not_lt.mpr (le_of_lt ht))]
    rfl

/-- Witness: each branch of the guarded ratio at concrete operands —
finite quotient, 0/0 collapsed to 0, and the two uncollapsed infinities. -/
theorem ratio_guard_amended_witness :
    ratioEntry (FVal.finite 1) (FVal.finite 0) = FVal.finite (1 / (0 + eps)) ∧
    ratioEntry (FVal.finite 0) (FVal.finite (-eps)) = FVal.finite 0 ∧
    ratioEntry (FVal.finite 1) (FVal.finite (-eps)) = FVal.inf ∧
    ratioEntry (FVal.finite (-1)) (FVal.finite (-eps)) = FVal.neginf :=
  ⟨(ratio_guard_amended 1 0).1 (by norm_num [eps]),
   (ratio_guard_amended 0 (-eps)).2.1 (by ring) rfl,
   (ratio_guard_amended 1 (-eps)).2.2.1 (by ring) one_pos,
   (ratio_guard_amended (-1) (-eps)).2.2.2 (by ring) (by norm_num)⟩

/-! C9 -/

/-- C9: for a 1000-row batch and any drawn fraction in `[0.05, 0.10]` the
fallback scorer flags between 50 and 100 rows, and each flagged row's
anomaly score is one of the values drawn from `[threshold, 1]`, hence lies
in `[threshold, 1]` itself. -/
theorem fallback_rate_bounds (u T : ℚ) (idxs : List ℕ) (scores : List ℚ)
    (h1 : 1/20 ≤ u) (h2 : u ≤ 1/10) :
    (50 ≤ numAnomalies 1000 u ∧ numAnomalies 1000 u ≤ 100) ∧
    (idxs.length = numAnomalies 1000 u → scores.length = idxs.length →
      (dummyDetect idxs scores T).length = numAnomalies 1000 u) ∧
    ((∀ s ∈ scores, T ≤ s ∧ s ≤ 1) →
      ∀ r ∈ dummyDetect idxs scores T,
        r.anomaly_score ∈ scores ∧ T ≤ r.anomaly_score ∧ r.anomaly_score ≤ 1) := by
  refine ⟨?_, fun hi hs => ?_, fun hbound r hr => ?_⟩
  · have hc : ((1000 : ℕ) : ℚ) = (1000 : ℚ) := by norm_num
    have hlo : (50 : ℚ) ≤ (1000 : ℚ) * u := by linarith
    have hhi : (1000 : ℚ) * u ≤ (100 : ℚ) := by linarith
    have h50 : (50 : ℤ) ≤ Int.floor ((1000 : ℚ) * u) := by
      rw [Int.le_floor]
      push_cast
      exact hlo
    have h100 : Int.floor ((1000 : ℚ) * u) ≤ (100 : ℤ) := by
      have hmono := Int.floor_le_floor hhi
      simpa using hmono
    unfold numAnomalies
    rw [hc]
    omega
  · unfold dummyDetect
    rw [List.length_insertionSort, List.length_map, List.length_zip, hs, hi]
    exact min_self _
  · have hr' : r ∈ (idxs.zip scores).map dummyMkRec := by
      have := (List.perm_insertionSort scoreDescRel
        ((idxs.zip scores).map dummyMkRec)).mem_iff.mp hr
      exact this
    rcases List.mem_map.mp hr' with ⟨p, hp, rfl⟩
    have hsc : p.2 ∈ scores := (List.of_mem_zip (by exact hp)).2
    exact ⟨hsc, (hbound p.2 hsc).1, (hbound p.2 hsc).2⟩

/-- Witness: at the boundary fraction 0.05 the flagged-row count for a
1000-row batch is within `[50, 100]`. -/
theorem fallback_rate_bounds_witness :
    50 ≤ numAnomalies 1000 (1/20) ∧ numAnomalies 1000 (1/20) ≤ 100 :=
  (fallback_rate_bounds (1/20) 0 [] [] (le_refl _) (by norm_num)).1

/-! C10 -/

/-- C10: the scaled batch of `preprocess_data` carries exactly the
numeric-dtype columns of the engineered frame, in construction order;
boolean one-hot columns are silently dropped before scaling, so the scaled
width equals the numeric-column count and can differ from `W` (here: a
2-row batch whose only engineered columns are one boolean dummy and one
synthetic pad yields width 1 against `W = 2`). -/
theorem preprocess_numeric_selection :
    (∀ (sc : Scaler) (df : RawDF),
      (preprocessData sc df).2.1
          = ((engineerFeatures sc.nFeaturesIn df).filter
              (fun c => isNumericVals c.2)).map (fun c => c.1) ∧
      ((preprocessData sc df).2.1).length
          = ((engineerFeatures sc.nFeaturesIn df).filter
              (fun c => isNumericVals c.2)).length) ∧
    (("currency_b", RawVals.bools [false, true])
        ∈ engineerFeatures 2 ⟨2, [("currency", RawVals.strs [some "a", some "b"])]⟩ ∧
      (preprocessData ⟨2, id⟩
          ⟨2, [("currency", RawVals.strs [some "a", some "b"])]⟩).2.1
        = ["feature_1"] ∧
      ((preprocessData ⟨2, id⟩
          ⟨2, [("currency", RawVals.strs [some "a", some "b"])]⟩).2.1).length ≠ 2) := by
  refine ⟨fun sc df => ⟨rfl, ?_⟩, by decide, by decide, by decide⟩
  simp [preprocessData]

end LeakDetector
